import Mathlib

/-!
# Verification of the nanobot upgrade-supervisor core

A shallow embedding of `nanobot/supervisor/service.py`.  Pure string
manipulation (`_slug`, `_trim`, task-log rendering, JSON serialization of a
request, id generation) is translated directly.  Effectful code (file writes,
git commands, process control, the clock) is modelled by explicit event traces:
each method of the supervisor becomes a Lean function from the request plus an
environment (the results the external world returns to each call the method
makes, in the order the source makes them) to the list of effects it performs.

All definitions follow the Python source; the environments stand for the
outcomes of `subprocess` invocations, `shutil.which` probes and clock reads,
which the source itself treats as opaque.
-/

/-! ## Small string helpers from the source -/

/-- A single-quote character (kept out of string literals). -/
def sqc : String := String.singleton (Char.ofNat 39)

/-- Model of `UpgradeSupervisor._trim`: truncate `text` to `limit` characters, noting
how much was dropped. -/
def _trim (text : String) (limit : Nat) : String :=
  if text.length ≤ limit then text
  else text.take limit ++ "\n... (truncated " ++ toString (text.length - limit) ++ " chars)"

/-- Is the character one of the whitespace characters Python strips? -/
def isPyWS (c : Char) : Bool :=
  c = ' ' || c = '\t' || c = '\n' || c = '\r' || c = '\x0b' || c = '\x0c'

/-- Model of the Python `str.strip()` with no arguments: drop leading and
trailing whitespace. -/
def pyStrip (s : String) : String :=
  String.mk (((s.data.dropWhile isPyWS).reverse.dropWhile isPyWS).reverse)

/-- Model of the Python `str.split(sep)` for a one-character separator, on `List Char`:
`pySplit sep l` returns the (possibly empty) chunks of `l` between
occurrences of `sep`; it is never the empty list. -/
def pySplit (sep : Char) : List Char → List (List Char)
  | [] => [[]]
  | c :: rest =>
      let r := pySplit sep rest
      if c = sep then [] :: r
      else (c :: r.headD []) :: r.tail

/-- Model of `"-".join(parts)` on `List Char` chunks. -/
def joinHyphen : List (List Char) → List Char
  | [] => []
  | [p] => p
  | p :: ps => p ++ '-' :: joinHyphen ps

/-- Model of `_slug`: the runs of lowercased alphanumeric characters of `text`
joined by single hyphens, truncated to 40 characters, defaulting to
`"upgrade"`.  Mirrors
`"".join(ch.lower() if ch.isalnum() else "-" for ch in text)`, then
`"-".join(part for part in clean.split("-") if part)`, then
`clean[:40] or "upgrade"`.  The Python `str.isalnum` and `str.lower` used by
the source are full Unicode-database classifications, so they are passed in
as the parameters `isAlnum` and `lower`; `lower` returns a character list
because the Python case mapping of one character can be several characters
(for example capital I with a dot above lowercases to `i` followed by the
combining dot above). -/
def _slug (isAlnum : Char → Bool) (lower : Char → List Char) (text : List Char) : List Char :=
  let clean1 := (text.map (fun ch => if isAlnum ch then lower ch else ['-'])).flatten
  let clean2 := joinHyphen ((pySplit '-' clean1).filter (fun p => p ≠ []))
  if clean2.take 40 = [] then "upgrade".data else clean2.take 40

/-- Fragment of the Python Unicode `str.isalnum`: exact on every ASCII
character and on the non-ASCII codepoints evaluated below — U+5347 (a CJK
letter, alphanumeric in Python) and U+0130 (capital I with dot above,
alphanumeric in Python); U+0307 (combining dot above) is correctly not
alphanumeric.  Other non-ASCII codepoints are not classified (they default
to false) and are never evaluated by the theorems below. -/
def pyIsAlnumFrag (c : Char) : Bool :=
  c.isAlphanum || c.toNat = 0x5347 || c.toNat = 0x130

/-- Fragment of the Python Unicode `str.lower` full case mapping: exact on
every ASCII character, on U+5347 (uncased, maps to itself) and on U+0130
(maps to `i` followed by the combining dot above U+0307, a two-character
lowercase).  Other non-ASCII codepoints map to themselves and are never
evaluated by the theorems below. -/
def pyLowerFrag (c : Char) : List Char :=
  if c.toNat = 0x130 then [Char.ofNat 0x69, Char.ofNat 0x307]
  else [c.toLower]

/-- Predicate `noDD l`: `l` has no two consecutive hyphens. -/
def noDD : List Char → Bool
  | a :: b :: rest => !(a == '-' && b == '-') && noDD (b :: rest)
  | _ => true

/-! ## Request ids (`UpgradeRequest.create`) -/

/-- Strict lexicographic (strcmp-style) order on character lists: the order in
which queue file names sort. -/
def lexLt : List Char → List Char → Bool
  | [], [] => false
  | [], _ :: _ => true
  | _ :: _, [] => false
  | a :: as, b :: bs => if a < b then true else if b < a then false else lexLt as bs

/-- The local wall-clock reading `datetime.now()` is formatted from. -/
structure LocalTime where
  year : Nat
  month : Nat
  day : Nat
  hour : Nat
  minute : Nat
  second : Nat
  deriving DecidableEq, Repr

/-- Relation: `t1` is an earlier clock reading than `t2` (componentwise lexicographic). -/
def tsEarlier (t1 t2 : LocalTime) : Prop :=
  t1.year < t2.year ∨ (t1.year = t2.year ∧
    (t1.month < t2.month ∨ (t1.month = t2.month ∧
      (t1.day < t2.day ∨ (t1.day = t2.day ∧
        (t1.hour < t2.hour ∨ (t1.hour = t2.hour ∧
          (t1.minute < t2.minute ∨ (t1.minute = t2.minute ∧
            t1.second < t2.second)))))))))

instance (t1 t2 : LocalTime) : Decidable (tsEarlier t1 t2) := by
  unfold tsEarlier; infer_instance

/-- Number `n` rendered as exactly `w` zero-padded decimal digits (as `strftime`
does for values in range). -/
def padNum : Nat → Nat → List Char
  | 0, _ => []
  | w + 1, n => padNum w (n / 10) ++ [Char.ofNat (48 + n % 10)]

/-- Model of the strftime call with format string Y-m-d dash H-M-S, no separators inside
each half. -/
def fmtTs (t : LocalTime) : List Char :=
  padNum 4 t.year ++ padNum 2 t.month ++ padNum 2 t.day ++ '-' ::
    (padNum 2 t.hour ++ padNum 2 t.minute ++ padNum 2 t.second)

/-- The id built by `UpgradeRequest.create`:
a strftime timestamp, a hyphen, and the first 6 hex digits of a fresh uuid,
with the random 6-character uuid suffix passed in explicitly. -/
def mkId (t : LocalTime) (suffix : List Char) : List Char :=
  fmtTs t ++ '-' :: suffix

/-! ## The request record and the file writes of the task store -/

/-- Record `UpgradeRequest` (dataclass field order preserved). -/
structure UpgradeRequest where
  id : String
  title : String
  prompt : String
  scope : String
  requested_by : String
  created_at : String
  deriving DecidableEq, Repr

/-- Path of a pending queue entry: the queue directory, the request id, and a
json extension. -/
def queuePath (id : String) : String := "upgrades/queue/" ++ id ++ ".json"

/-- Path of a task-log record: the tasks directory, the request id, and an md
extension. -/
def taskMdPath (id : String) : String := "upgrades/tasks/" ++ id ++ ".md"

/-- One hexadecimal digit, lowercase. -/
def hexDigit (n : Nat) : Char :=
  if n < 10 then Char.ofNat (48 + n) else Char.ofNat (87 + n)

/-- Four hexadecimal digits. -/
def hex4 (n : Nat) : String :=
  String.mk [hexDigit (n / 4096 % 16), hexDigit (n / 256 % 16),
             hexDigit (n / 16 % 16), hexDigit (n % 16)]

/-- JSON string escaping as `json.dumps(..., ensure_ascii=False)` performs it. -/
def jsonEscapeChar (c : Char) : String :=
  if c = '"' then "\\\""
  else if c = '\\' then "\\\\"
  else if c = '\x08' then "\\b"
  else if c = '\x0c' then "\\f"
  else if c = '\n' then "\\n"
  else if c = '\r' then "\\r"
  else if c = '\t' then "\\t"
  else if c.toNat < 32 then "\\u" ++ hex4 c.toNat
  else String.singleton c

/-- A JSON string literal. -/
def jsonStr (s : String) : String :=
  "\"" ++ String.join (s.data.map jsonEscapeChar) ++ "\""

/-- Model of `json.dumps(asdict(req), ensure_ascii=False, indent=2)`. -/
def jsonOfReq (req : UpgradeRequest) : String :=
  "\x7b\n  \"id\": " ++ jsonStr req.id ++
  ",\n  \"title\": " ++ jsonStr req.title ++
  ",\n  \"prompt\": " ++ jsonStr req.prompt ++
  ",\n  \"scope\": " ++ jsonStr req.scope ++
  ",\n  \"requested_by\": " ++ jsonStr req.requested_by ++
  ",\n  \"created_at\": " ++ jsonStr req.created_at ++ "\n\x7d"

/-- The full text `UpgradeTaskStore.write_task_md` composes:
`"\n".join(content) + "\n"` where `content` is the fixed header followed by
one `- {n}` line per note.  `now` stands for the `_utc_now()` reading. -/
def renderTaskMd (req : UpgradeRequest) (status : String) (notes : List String)
    (now : String) : String :=
  String.intercalate "\n"
    (["# Upgrade Task " ++ req.id,
      "",
      "- Title: " ++ req.title,
      "- Scope: " ++ req.scope,
      "- Requested By: " ++ req.requested_by,
      "- Created At (UTC): " ++ req.created_at,
      "- Last Updated (UTC): " ++ now,
      "- Status: " ++ status,
      "",
      "## Prompt",
      "",
      req.prompt,
      "",
      "## Notes"]
     ++ notes.map (fun n => "- " ++ n)) ++ "\n"

/-- A filesystem operation performed by the task store. -/
inductive FsOp where
  | write (path content : String)
  | rename (src dst : String)
  deriving DecidableEq, Repr

/-- Does the operation rename a file? -/
def FsOp.isRename : FsOp → Bool
  | .rename _ _ => true
  | .write _ _ => false

/-- The filesystem operations `UpgradeTaskStore.write_task_md` performs:
a single `Path.write_text` of the rendered record onto its final path. -/
def writeTaskMdOps (req : UpgradeRequest) (status : String) (notes : List String)
    (now : String) : List FsOp :=
  [FsOp.write (taskMdPath req.id) (renderTaskMd req status notes now)]

/-- The filesystem operations `UpgradeTaskStore.enqueue` performs: one direct
`write_text` of the serialized request onto the queue path, then the
`write_task_md` of the fresh `QUEUED` record. -/
def enqueueOps (req : UpgradeRequest) (now : String) : List FsOp :=
  FsOp.write (queuePath req.id) (jsonOfReq req) :: writeTaskMdOps req "QUEUED" ["Task queued."] now

/-- The task-log directory as a mapping from paths to file contents;
`applyMdWrite` is the store update `write_task_md` induces. -/
def applyMdWrite (store : String → String) (req : UpgradeRequest) (status : String)
    (notes : List String) (now : String) : String → String :=
  fun p => if p = taskMdPath req.id then renderTaskMd req status notes now else store p

/-! ## The verification pipeline (`UpgradeSupervisor._verify`) -/

/-- An external command invocation made inside the develop-verify loop,
recording the timeout passed to it and (for the generation step) the
wall-clock budget remaining under the loop deadline when it was issued. -/
inductive Invocation where
  | codex (prompt : String) (timeoutArg remaining : Int)
  | check (name : String) (timeoutArg : Int)
  deriving DecidableEq, Repr

/-- The fixed check pipeline of `_verify`. -/
def checksList : List (String × List String) :=
  [("compile", ["python3", "-m", "compileall", "nanobot"]),
   ("ruff", ["ruff", "check", "."]),
   ("pytest", ["pytest", "-q"])]

/-- Results the external world returns to `_verify`: whether each executable
is on the PATH (`shutil.which`) and the outcome of running each named check
(`_run_cmd` with `check=False`). -/
structure VerifyEnv where
  which : String → Bool
  runOk : String → Bool
  runOut : String → String

/-- Result of the verification pipeline: overall pass flag, accumulated
notes, and the external invocations issued (each check runs with the fixed
timeout of 600 seconds). -/
structure VerifyResult where
  ok : Bool
  notes : List String
  invs : List Invocation
  deriving DecidableEq, Repr

/-- Recursion of `_verify` over the check pipeline: skip a check whose
executable is absent, run the rest, short-circuit on the first failure, and
fail when nothing executed. -/
def verifyAux (env : VerifyEnv) : List (String × List String) → Nat → List String →
    List Invocation → VerifyResult
  | [], executed, notes, invs =>
      if executed = 0 then ⟨false, notes ++ ["No verification tools available."], invs⟩
      else ⟨true, notes, invs⟩
  | (name, cmd) :: rest, executed, notes, invs =>
      if env.which (cmd.headD "") = false then
        verifyAux env rest executed
          (notes ++ ["Skipped " ++ name ++ ": " ++ sqc ++ cmd.headD "" ++ sqc ++ " not found."]) invs
      else
        let invs1 := invs ++ [Invocation.check name 600]
        if env.runOk name then
          verifyAux env rest (executed + 1) (notes ++ [name ++ " passed."]) invs1
        else
          ⟨false, notes ++ [name ++ " failed.", _trim (env.runOut name) 1200], invs1⟩

/-- Model of `UpgradeSupervisor._verify`. -/
def verify (env : VerifyEnv) : VerifyResult :=
  verifyAux env checksList 0 [] []

/-! ## The develop-verify loop (`UpgradeSupervisor._develop_and_verify`) -/

/-- Timeout passed to the generation step,
`min(900, max(60, int(deadline - time.time())))`, as a function of the
remaining budget `deadline - time.time()`. -/
def codexTimeout (remaining : Int) : Int := min 900 (max 60 remaining)

/-- Feedback block carried into the next attempt:
`"\n".join(verify_notes[-8:])`, the newline-join of the last (up to) eight
entries of the previous verification note list. -/
def feedbackOf (verifyNotes : List String) : String :=
  String.intercalate "\n" (verifyNotes.drop (verifyNotes.length - 8))

/-- Number of text lines in a string (newline count plus one). -/
def numLines (s : String) : Nat := s.data.count '\n' + 1

/-- The prompt composed for the generation step on each attempt. -/
def codexPrompt (reqPrompt feedback : String) : String :=
  "You are upgrading nanobot core. " ++
  "Rules: make minimal safe changes, keep service stable, and run quick self-checks. " ++
  "Task:\n" ++ reqPrompt ++ "\n\n" ++
  "If previous attempt failed, fix based on this feedback:\n" ++
  (if feedback = "" then "(none)" else feedback)

/-- Per-attempt external-world results for the develop-verify loop: the two
clock readings the attempt makes (at the `while` check and inside the timeout
expression), the generation-step outcome, and the verification results. -/
structure AttemptEnv where
  tLoop : Int
  tCall : Int
  codexOk : Bool
  codexOut : String
  verifyEnv : VerifyEnv

/-- Result of the develop-verify loop: pass flag, note log, and all external
invocations issued. -/
structure DVResult where
  ok : Bool
  notes : List String
  invs : List Invocation

/-- Recursion of `_develop_and_verify` over successive attempts.  Each
iteration checks the deadline, invokes the generation step with the clamped
timeout, runs the verification pipeline, and either returns success or loops
with feedback built from the verification notes.  An exhausted attempt list
stands for a clock that has passed the deadline. -/
def dvAux (reqPrompt : String) (deadline : Int) : List AttemptEnv → Nat → List String →
    String → DVResult
  | [], _, notes, _ =>
      ⟨false, notes ++ ["Timeout exceeded (30 minutes) before successful verification."], []⟩
  | a :: rest, attempt, notes, feedback =>
      if deadline ≤ a.tLoop then
        ⟨false, notes ++ ["Timeout exceeded (30 minutes) before successful verification."], []⟩
      else
        let attempt1 := attempt + 1
        let notes1 := notes ++ ["Attempt " ++ toString attempt1 ++ ": coding in sandbox."]
        let remaining := deadline - a.tCall
        let inv := Invocation.codex (codexPrompt reqPrompt feedback) (codexTimeout remaining) remaining
        let notes2 := notes1 ++
          [if a.codexOk then "Codex exec finished."
           else "Codex exec issue: " ++ (a.codexOut.take 300)]
        let v := verify a.verifyEnv
        let notes3 := notes2 ++ v.notes
        if v.ok then
          ⟨true, notes3 ++ ["Verification passed."], inv :: v.invs⟩
        else
          let r := dvAux reqPrompt deadline rest attempt1 notes3 (feedbackOf v.notes)
          ⟨r.ok, r.notes, (inv :: v.invs) ++ r.invs⟩

/-- Model of `UpgradeSupervisor._develop_and_verify` (the deadline is
`time.time() + self.build_timeout_s`; `attempts` supplies the external-world
results of each iteration). -/
def developVerify (reqPrompt : String) (deadline : Int) (attempts : List AttemptEnv) : DVResult :=
  dvAux reqPrompt deadline attempts 0 [] ""

/-! ## Deploy, task processing, and the polling loop -/

/-- An observable effect of the supervisor while handling one task. -/
inductive Event where
  | writeTaskMd (id status : String) (notes : List String)
  | popQueue (id : String)
  | enqueueReq (id : String)
  | worktreeAdd (id : String)
  | worktreeRemove (id : String)
  | writeForwardPatch (id : String) (content : String)
  | writeRollbackPatch (id : String) (content : String)
  | applyPatchLive (ok : Bool)
  | reverseApplyLive
  | stopService
  | startService (ok : Bool)
  | terminateOldProc
  deriving DecidableEq, Repr

/-- Does the event remove a queue entry? -/
def Event.isPop : Event → Bool
  | .popQueue _ => true
  | _ => false

/-- Does the event add a queue entry? -/
def Event.isEnqueue : Event → Bool
  | .enqueueReq _ => true
  | _ => false

/-- Does the event mutate the live source tree?  A successful forward apply
does; the reverse apply during rollback is counted as a mutation whatever its
outcome, since the source discards its result. -/
def Event.mutatesLive : Event → Bool
  | .applyPatchLive ok => ok
  | .reverseApplyLive => true
  | _ => false

/-- Does the event persist the forward patch? -/
def Event.isWriteForward : Event → Bool
  | .writeForwardPatch _ _ => true
  | _ => false

/-- Does the event persist the rollback patch? -/
def Event.isWriteRollback : Event → Bool
  | .writeRollbackPatch _ _ => true
  | _ => false

/-- Is the event part of the service cutover (stopping or starting the
supervised service)? -/
def Event.isCutover : Event → Bool
  | .stopService => true
  | .startService _ => true
  | _ => false

/-- Backup path of the forward patch
(the backups directory, the request id, and a forward-patch suffix). -/
def backupPatchPath (id : String) : String := "upgrades/backups/" ++ id ++ "-forward.patch"

/-- Backup path of the rollback patch
(the backups directory, the request id, and a rollback-patch suffix). -/
def rollbackPatchPath (id : String) : String := "upgrades/backups/" ++ id ++ "-rollback.patch"

/-- Results the external world returns to `_deploy`, in source order: the
candidate-diff export, the live apply, the staged reverse diff, the two
service starts, and the liveness of the old process handle at the end. -/
structure DeployEnv where
  diffOk : Bool
  diff : String
  applyOk : Bool
  applyOut : String
  reverseOk : Bool
  reverse : String
  startOk : Bool
  rollbackStartOk : Bool
  oldProcAlive : Bool
  deriving DecidableEq, Repr

/-- Result of `_deploy`: events performed, success flag, notes returned. -/
structure DeployResult where
  events : List Event
  ok : Bool
  notes : List String
  deriving DecidableEq, Repr

/-- Model of `UpgradeSupervisor._deploy`.  Mirrors the source line by line:
export the candidate diff, refuse empty diffs, persist the forward patch,
apply it to the live tree, persist the staged reverse diff as the rollback
patch when it exported and is non-empty, cut over, and on a failed health
check reverse-apply and restart. -/
def deploy (id : String) (env : DeployEnv) : DeployResult :=
  if ¬ env.diffOk then
    ⟨[], false, ["Failed to export candidate patch.", _trim env.diff 600]⟩
  else if pyStrip env.diff = "" then
    ⟨[], false, ["No code changes were produced."]⟩
  else
    let evsA : List Event := [.writeForwardPatch id env.diff]
    let notesA : List String := ["Saved candidate patch: " ++ backupPatchPath id]
    let evsB := evsA ++ [.applyPatchLive env.applyOk]
    if ¬ env.applyOk then
      ⟨evsB, false, ["Failed to apply candidate patch to live repo.", _trim env.applyOut 800]⟩
    else
      let hasRollback := env.reverseOk ∧ pyStrip env.reverse ≠ ""
      let evsC := evsB ++ (if hasRollback then [.writeRollbackPatch id env.reverse] else [])
      let notesC := notesA ++
        (if hasRollback then ["Saved rollback patch: " ++ rollbackPatchPath id] else [])
      let evsD := evsC ++ [.stopService, .startService env.startOk]
      if env.startOk then
        ⟨evsD, true, notesC ++ ["New service started successfully; cutover complete."]⟩
      else
        let notesD := notesC ++ ["New service failed health check; starting rollback."]
        let evsE := evsD ++ [.reverseApplyLive, .stopService, .startService env.rollbackStartOk]
        let notesE := notesD ++
          [if env.rollbackStartOk then "Rollback succeeded; previous service restored."
           else "Rollback failed to restore service automatically; manual intervention needed."]
        let evsF := evsE ++ (if env.oldProcAlive then [.terminateOldProc] else [])
        ⟨evsF, false, notesE⟩

/-- Note written on rejection of a non-core request. -/
def rejectNote : String :=
  "Non-core task: should be handled by skill installation/update pipeline."

/-- Results the external world returns to `_process`: cleanliness of the live
repository, and the outcome of the develop-verify phase (whose internal
structure is modelled separately by `developVerify`). -/
structure ProcessEnv where
  repoClean : Bool
  cleanDetail : String
  devOk : Bool
  devNotes : List String
  deployEnv : DeployEnv
  deriving DecidableEq, Repr

/-- Model of `UpgradeSupervisor._process` as the list of effects it performs:
reject non-core scopes, fail on a dirty live tree, otherwise create the
worktree, develop-verify, deploy on success, and always remove the worktree
in the `finally` block.  Every status write is a `writeTaskMd` event. -/
def processEvents (req : UpgradeRequest) (env : ProcessEnv) : List Event :=
  if req.scope ≠ "core" then
    [.writeTaskMd req.id "REJECTED" [rejectNote]]
  else if ¬ env.repoClean then
    [.writeTaskMd req.id "FAILED" ["Repo not clean: " ++ env.cleanDetail]]
  else
    [.writeTaskMd req.id "IN_PROGRESS" ["Creating isolated worktree."], .worktreeAdd req.id] ++
    (if ¬ env.devOk then
      [Event.writeTaskMd req.id "FAILED" env.devNotes]
    else
      let d := deploy req.id env.deployEnv
      d.events ++
        [Event.writeTaskMd req.id (if d.ok then "SUCCESS" else "FAILED")
          (env.devNotes ++ d.notes)]) ++
    [.worktreeRemove req.id]

/-- Outcome of one `_process` call as seen by `run_forever`: either it ran to
completion, or it raised after performing some prefix of its effects (the
`raised` case models an unexpected fault at an arbitrary point). -/
inductive ProcOutcome where
  | completed (env : ProcessEnv)
  | raised (env : ProcessEnv) (n : Nat) (msg : String)

/-- Model of one pending-task iteration of `UpgradeSupervisor.run_forever`:
`try: _process(req) except: write FAILED finally: pop(req_file)`. -/
def runOnce (req : UpgradeRequest) (o : ProcOutcome) : List Event :=
  match o with
  | .completed env => processEvents req env ++ [.popQueue req.id]
  | .raised env n msg =>
      (processEvents req env).take n ++
      [.writeTaskMd req.id "FAILED" ["Supervisor exception: " ++ msg], .popQueue req.id]

/-- Terminal task statuses. -/
def isTerminal (s : String) : Bool :=
  s = "SUCCESS" || s = "FAILED" || s = "REJECTED"

/-- Status-and-notes pairs of the task-log writes inside an event trace. -/
def mdWrites (evs : List Event) : List (String × List String) :=
  evs.filterMap (fun e => match e with
    | .writeTaskMd _ s n => some (s, n)
    | _ => none)

/-- Task-log writes over the whole lifecycle of a request: the enqueue-time
record (status QUEUED, single note) followed by the writes of the processing
iteration. -/
def lifecycleWrites (req : UpgradeRequest) (o : ProcOutcome) : List (String × List String) :=
  ("QUEUED", ["Task queued."]) :: mdWrites (runOnce req o)

/-- Checker: in an event trace, no live-tree mutation happens before the
forward patch has been persisted (scanning left to right, a mutation seen
before the first forward-patch write fails the check). -/
def fwdBeforeMut : List Event → Bool
  | [] => true
  | e :: rest =>
      if e.mutatesLive then false
      else if e.isWriteForward then true
      else fwdBeforeMut rest

/-- Checker: the rollback patch is never persisted before the forward patch
has been applied to the live tree. -/
def applyBeforeRollback : List Event → Bool
  | [] => true
  | e :: rest =>
      if e.isWriteRollback then false
      else if e = .applyPatchLive true then true
      else applyBeforeRollback rest

/-- Checker: the rollback patch is never persisted after the service cutover
has begun. -/
def noRollbackAfterCutover : List Event → Bool
  | [] => true
  | e :: rest =>
      if e.isCutover then rest.all (fun x => !x.isWriteRollback)
      else noRollbackAfterCutover rest

/-- Predicate on a filesystem operation: it is a direct write to one of the
final artifact paths of task `id` (so in particular not a rename). -/
def writesFinal (id : String) : FsOp → Bool
  | .write p _ => p == queuePath id || p == taskMdPath id
  | .rename _ _ => false

/-- Fields of a local clock reading are within the ranges the strftime
format zero-pads to. -/
def tsBounded (t : LocalTime) : Prop :=
  t.year < 10000 ∧ t.month < 100 ∧ t.day < 100 ∧
  t.hour < 100 ∧ t.minute < 100 ∧ t.second < 100

instance (t : LocalTime) : Decidable (tsBounded t) := by
  unfold tsBounded; infer_instance

/-! ## Helper lemmas: characters -/

theorem char_toNat_ofNat {n : Nat} (h : n < 55296) : (Char.ofNat n).toNat = n := by
  have hv : n.isValidChar := Or.inl h
  simp [Char.ofNat, hv, Char.ofNatAux, Char.toNat, UInt32.toNat, BitVec.toNat_ofNatLt]

theorem char_isUpper_iff (c : Char) : c.isUpper = true ↔ 65 ≤ c.toNat ∧ c.toNat ≤ 90 := by
  simp only [Char.isUpper, Bool.and_eq_true, decide_eq_true_eq, ge_iff_le]
  constructor
  · rintro ⟨h1, h2⟩
    exact ⟨UInt32.le_def.mp h1, UInt32.le_def.mp h2⟩
  · rintro ⟨h1, h2⟩
    exact ⟨UInt32.le_def.mpr h1, UInt32.le_def.mpr h2⟩

theorem char_isLower_iff (c : Char) : c.isLower = true ↔ 97 ≤ c.toNat ∧ c.toNat ≤ 122 := by
  simp only [Char.isLower, Bool.and_eq_true, decide_eq_true_eq, ge_iff_le]
  constructor
  · rintro ⟨h1, h2⟩
    exact ⟨UInt32.le_def.mp h1, UInt32.le_def.mp h2⟩
  · rintro ⟨h1, h2⟩
    exact ⟨UInt32.le_def.mpr h1, UInt32.le_def.mpr h2⟩

theorem char_isDigit_iff (c : Char) : c.isDigit = true ↔ 48 ≤ c.toNat ∧ c.toNat ≤ 57 := by
  simp only [Char.isDigit, Bool.and_eq_true, decide_eq_true_eq, ge_iff_le]
  constructor
  · rintro ⟨h1, h2⟩
    exact ⟨UInt32.le_def.mp h1, UInt32.le_def.mp h2⟩
  · rintro ⟨h1, h2⟩
    exact ⟨UInt32.le_def.mpr h1, UInt32.le_def.mpr h2⟩

theorem char_isAlphanum_iff (c : Char) :
    c.isAlphanum = true ↔
      (65 ≤ c.toNat ∧ c.toNat ≤ 90) ∨ (97 ≤ c.toNat ∧ c.toNat ≤ 122) ∨
      (48 ≤ c.toNat ∧ c.toNat ≤ 57) := by
  simp only [Char.isAlphanum, Char.isAlpha, Bool.or_eq_true, char_isUpper_iff,
    char_isLower_iff, char_isDigit_iff]
  tauto

theorem toLower_alnum (c : Char) (h : c.isAlphanum = true) :
    (c.toLower).isAlphanum = true ∧ (c.toLower).isUpper = false := by
  rw [char_isAlphanum_iff] at h
  unfold Char.toLower
  simp only []
  split
  · next hin =>
    have h32 : (Char.ofNat (c.toNat + 32)).toNat = c.toNat + 32 :=
      char_toNat_ofNat (by omega)
    constructor
    · rw [char_isAlphanum_iff, h32]; omega
    · rw [← Bool.not_eq_true, char_isUpper_iff, h32]; omega
  · next hout =>
    have hnot : ¬ (65 ≤ c.toNat ∧ c.toNat ≤ 90) := by
      intro hc; exact hout ⟨hc.1, hc.2⟩
    constructor
    · rw [char_isAlphanum_iff]; omega
    · rw [← Bool.not_eq_true, char_isUpper_iff]; omega

/-! ## Helper lemmas: splitting and joining on hyphens -/

theorem pySplit_ne_nil (sep : Char) : ∀ l : List Char, pySplit sep l ≠ []
  | [] => by simp [pySplit]
  | c :: rest => by
      have := pySplit_ne_nil sep rest
      simp only [pySplit]
      split <;> simp_all [List.tail]

theorem pySplit_chars (sep : Char) :
    ∀ (l : List Char) (p : List Char), p ∈ pySplit sep l → ∀ c ∈ p, c ∈ l ∧ c ≠ sep
  | [], p, hp, c, hc => by
      simp [pySplit] at hp
      subst hp
      simp at hc
  | a :: rest, p, hp, c, hc => by
      obtain ⟨p0, ps, hr⟩ : ∃ p0 ps, pySplit sep rest = p0 :: ps := by
        cases h : pySplit sep rest with
        | nil => exact absurd h (pySplit_ne_nil sep rest)
        | cons p0 ps => exact ⟨p0, ps, rfl⟩
      simp only [pySplit, hr] at hp
      by_cases ha : a = sep
      · rw [if_pos ha] at hp
        rcases List.mem_cons.mp hp with h0 | h0
        · subst h0; simp at hc
        · have := pySplit_chars sep rest p (by rw [hr]; exact h0) c hc
          exact ⟨List.mem_cons_of_mem _ this.1, this.2⟩
      · rw [if_neg ha] at hp
        simp only [List.headD_cons, List.tail_cons] at hp
        rcases List.mem_cons.mp hp with h0 | h0
        · subst h0
          rcases List.mem_cons.mp hc with h1 | h1
          · subst h1; exact ⟨List.mem_cons_self _ _, ha⟩
          · have := pySplit_chars sep rest p0 (by rw [hr]; exact List.mem_cons_self _ _) c h1
            exact ⟨List.mem_cons_of_mem _ this.1, this.2⟩
        · have := pySplit_chars sep rest p (by rw [hr]; exact List.mem_cons_of_mem _ h0) c hc
          exact ⟨List.mem_cons_of_mem _ this.1, this.2⟩

theorem joinHyphen_cons (q : List Char) (ps : List (List Char)) :
    joinHyphen (q :: ps) = q ++ (if ps = [] then [] else '-' :: joinHyphen ps) := by
  cases ps <;> simp [joinHyphen]

theorem joinHyphen_mem :
    ∀ (parts : List (List Char)) (c : Char), c ∈ joinHyphen parts →
      c = '-' ∨ ∃ p ∈ parts, c ∈ p
  | [], c, hc => by simp [joinHyphen] at hc
  | [p], c, hc => by
      simp only [joinHyphen] at hc
      exact Or.inr ⟨p, List.mem_singleton.mpr rfl, hc⟩
  | p :: q :: ps, c, hc => by
      simp only [joinHyphen, List.mem_append, List.mem_cons] at hc
      rcases hc with h0 | h0 | h0
      · exact Or.inr ⟨p, List.mem_cons_self _ _, h0⟩
      · exact Or.inl h0
      · rcases joinHyphen_mem (q :: ps) c h0 with h1 | ⟨r, hr, hcr⟩
        · exact Or.inl h1
        · exact Or.inr ⟨r, List.mem_cons_of_mem _ hr, hcr⟩

theorem noDD_hyphenFree : ∀ (p : List Char), '-' ∉ p → noDD p = true
  | [], _ => rfl
  | [_], _ => rfl
  | a :: b :: rest, h => by
      simp only [noDD, Bool.and_eq_true, Bool.not_eq_true']
      refine ⟨?_, noDD_hyphenFree (b :: rest) (fun hb => h (List.mem_cons_of_mem _ hb))⟩
      have ha : a ≠ '-' := fun hh => h (by simp [hh])
      simp [ha]

theorem noDD_append_left :
    ∀ (p l : List Char), '-' ∉ p → noDD l = true → noDD (p ++ l) = true
  | [], l, _, hl => hl
  | [a], l, hp, hl => by
      have ha : a ≠ '-' := fun hh => hp (by simp [hh])
      cases l with
      | nil => rfl
      | cons b l' =>
          simp only [List.singleton_append, noDD, Bool.and_eq_true, Bool.not_eq_true']
          exact ⟨by simp [ha], hl⟩
  | a :: b :: p', l, hp, hl => by
      have ha : a ≠ '-' := fun hh => hp (by simp [hh])
      have htail : '-' ∉ b :: p' := fun hh => hp (List.mem_cons_of_mem _ hh)
      have hrec := noDD_append_left (b :: p') l htail hl
      rw [List.cons_append] at hrec
      show noDD (a :: b :: (p' ++ l)) = true
      simp only [noDD, Bool.and_eq_true, Bool.not_eq_true']
      exact ⟨by simp [ha], hrec⟩

theorem joinHyphen_noDD :
    ∀ parts : List (List Char), (∀ p ∈ parts, p ≠ [] ∧ '-' ∉ p) →
      noDD (joinHyphen parts) = true
  | [], _ => rfl
  | [p], h => noDD_hyphenFree p (h p (List.mem_singleton.mpr rfl)).2
  | p :: q :: ps, h => by
      have hp := h p (List.mem_cons_self _ _)
      have hq := h q (List.mem_cons_of_mem _ (List.mem_cons_self _ _))
      have hrest : ∀ r ∈ q :: ps, r ≠ [] ∧ '-' ∉ r :=
        fun r hr => h r (List.mem_cons_of_mem _ hr)
      have hj := joinHyphen_noDD (q :: ps) hrest
      show noDD (p ++ '-' :: joinHyphen (q :: ps)) = true
      apply noDD_append_left p _ hp.2
      obtain ⟨qc, qt, hqe⟩ : ∃ qc qt, q = qc :: qt := by
        cases q with
        | nil => exact absurd rfl hq.1
        | cons qc qt => exact ⟨qc, qt, rfl⟩
      have hqc : qc ≠ '-' := by
        intro hh
        exact hq.2 (by rw [hqe, hh]; exact List.mem_cons_self _ _)
      have hje : joinHyphen (q :: ps) = qc :: (qt ++ (if ps = [] then [] else '-' :: joinHyphen ps)) := by
        rw [joinHyphen_cons, hqe]; rfl
      rw [hje]
      rw [hje] at hj
      simp only [noDD, Bool.and_eq_true, Bool.not_eq_true']
      exact ⟨by simp [hqc], hj⟩

theorem noDD_take : ∀ (l : List Char) (n : Nat), noDD l = true → noDD (l.take n) = true
  | [], n, _ => by simp [noDD]
  | [a], n, _ => by cases n <;> simp [noDD]
  | a :: b :: rest, 0, _ => by simp [noDD]
  | a :: b :: rest, 1, _ => by simp [noDD]
  | a :: b :: rest, n + 2, h => by
      simp only [noDD, Bool.and_eq_true] at h
      have := noDD_take (b :: rest) (n + 1) h.2
      simp only [List.take_succ_cons, noDD, Bool.and_eq_true] at this ⊢
      exact ⟨h.1, this⟩

/-! ## Helper lemmas: lexicographic order of ids -/

theorem lexLt_append_same :
    ∀ (xs ys1 ys2 : List Char), lexLt ys1 ys2 = true → lexLt (xs ++ ys1) (xs ++ ys2) = true
  | [], _, _, h => h
  | a :: as, ys1, ys2, h => by
      have := lexLt_append_same as ys1 ys2 h
      simp only [List.cons_append, lexLt, lt_irrefl, if_false]
      exact this

theorem lexLt_append_len :
    ∀ (xs1 xs2 ys1 ys2 : List Char), xs1.length = xs2.length → lexLt xs1 xs2 = true →
      lexLt (xs1 ++ ys1) (xs2 ++ ys2) = true
  | [], [], _, _, _, h => by simp [lexLt] at h
  | [], _ :: _, _, _, hlen, _ => by simp at hlen
  | _ :: _, [], _, _, hlen, _ => by simp at hlen
  | a :: as, b :: bs, ys1, ys2, hlen, h => by
      simp only [List.length_cons, Nat.add_right_cancel_iff] at hlen
      simp only [List.cons_append, lexLt]
      by_cases hab : a < b
      · simp [hab]
      · by_cases hba : b < a
        · simp only [lexLt, if_neg hab, if_pos hba] at h
          exact absurd h (by simp)
        · have heq : a = b := le_antisymm (le_of_not_lt hba) (le_of_not_lt hab)
          simp only [lexLt, if_neg hab, if_neg hba] at h
          simp [if_neg hab, if_neg hba, lexLt_append_len as bs ys1 ys2 hlen h]

theorem padNum_length : ∀ (w n : Nat), (padNum w n).length = w
  | 0, _ => rfl
  | w + 1, n => by simp [padNum, padNum_length w]

theorem digit_lt : ∀ a < 10, ∀ b < 10, a < b →
    Char.ofNat (48 + a) < Char.ofNat (48 + b) := by decide

theorem padNum_lt :
    ∀ (w n1 n2 : Nat), n1 < n2 → n2 < 10 ^ w → lexLt (padNum w n1) (padNum w n2) = true
  | 0, n1, n2, h12, hub => by
      simp only [pow_zero, Nat.lt_one_iff] at hub
      omega
  | w + 1, n1, n2, h12, hub => by
      have hdivle : n1 / 10 ≤ n2 / 10 := Nat.div_le_div_right (le_of_lt h12)
      have hub2 : n2 / 10 < 10 ^ w := by
        rw [Nat.div_lt_iff_lt_mul (by norm_num)]
        calc n2 < 10 ^ (w + 1) := hub
          _ = 10 ^ w * 10 := by ring
      rcases lt_or_eq_of_le hdivle with hlt | heq
      · exact lexLt_append_len _ _ _ _
          (by rw [padNum_length, padNum_length]) (padNum_lt w _ _ hlt hub2)
      · show lexLt (padNum w (n1 / 10) ++ [Char.ofNat (48 + n1 % 10)])
            (padNum w (n2 / 10) ++ [Char.ofNat (48 + n2 % 10)]) = true
        rw [heq]
        apply lexLt_append_same
        have hmod : n1 % 10 < n2 % 10 := by
          have e1 := Nat.div_add_mod n1 10
          have e2 := Nat.div_add_mod n2 10
          omega
        have hd := digit_lt (n1 % 10) (Nat.mod_lt _ (by norm_num)) (n2 % 10)
          (Nat.mod_lt _ (by norm_num)) hmod
        simp [lexLt, hd]

theorem fmtTs_length (t : LocalTime) : (fmtTs t).length = 15 := by
  simp [fmtTs, padNum_length]

theorem fmtTs_lt (t1 t2 : LocalTime) (hb1 : tsBounded t1) (hb2 : tsBounded t2)
    (h : tsEarlier t1 t2) : lexLt (fmtTs t1) (fmtTs t2) = true := by
  obtain ⟨hy1, hmo1, hd1, hh1, hmi1, hs1⟩ := hb1
  obtain ⟨hy2, hmo2, hd2, hh2, hmi2, hs2⟩ := hb2
  unfold fmtTs
  simp only [List.append_assoc]
  rcases h with hy | ⟨hy, h⟩
  · exact lexLt_append_len _ _ _ _ (by rw [padNum_length, padNum_length])
      (padNum_lt 4 _ _ hy hy2)
  rw [hy]
  refine lexLt_append_same (padNum 4 t2.year) _ _ ?_
  rcases h with hmo | ⟨hmo, h⟩
  · exact lexLt_append_len _ _ _ _ (by rw [padNum_length, padNum_length])
      (padNum_lt 2 _ _ hmo hmo2)
  rw [hmo]
  refine lexLt_append_same (padNum 2 t2.month) _ _ ?_
  rcases h with hd | ⟨hd, h⟩
  · exact lexLt_append_len _ _ _ _ (by rw [padNum_length, padNum_length])
      (padNum_lt 2 _ _ hd hd2)
  rw [hd]
  refine lexLt_append_same (padNum 2 t2.day) _ _ ?_
  refine lexLt_append_same ['-'] _ _ ?_
  rcases h with hh | ⟨hh, h⟩
  · exact lexLt_append_len _ _ _ _ (by rw [padNum_length, padNum_length])
      (padNum_lt 2 _ _ hh hh2)
  rw [hh]
  refine lexLt_append_same (padNum 2 t2.hour) _ _ ?_
  rcases h with hmi | ⟨hmi, hs⟩
  · exact lexLt_append_len _ _ _ _ (by rw [padNum_length, padNum_length])
      (padNum_lt 2 _ _ hmi hmi2)
  rw [hmi]
  refine lexLt_append_same (padNum 2 t2.minute) _ _ ?_
  exact padNum_lt 2 _ _ hs hs2

theorem mkId_lt (t1 t2 : LocalTime) (s1 s2 : List Char) (hb1 : tsBounded t1)
    (hb2 : tsBounded t2) (h : tsEarlier t1 t2) :
    lexLt (mkId t1 s1) (mkId t2 s2) = true :=
  lexLt_append_len _ _ _ _ (by rw [fmtTs_length, fmtTs_length])
    (fmtTs_lt t1 t2 hb1 hb2 h)

/-! ## Helper lemmas: invocation shapes in the develop-verify loop -/

theorem verifyAux_invs_shape (env : VerifyEnv) :
    ∀ (cs : List (String × List String)) (executed : Nat) (notes : List String)
      (invs : List Invocation),
      (∀ i ∈ invs, ∃ name, i = Invocation.check name 600) →
      ∀ i ∈ (verifyAux env cs executed notes invs).invs, ∃ name, i = Invocation.check name 600
  | [], executed, notes, invs, hacc, i, hi => by
      simp only [verifyAux] at hi
      split at hi <;> exact hacc i hi
  | (name, cmd) :: rest, executed, notes, invs, hacc, i, hi => by
      simp only [verifyAux] at hi
      split at hi
      · exact verifyAux_invs_shape env rest executed _ invs hacc i hi
      · split at hi
        · refine verifyAux_invs_shape env rest (executed + 1) _ _ ?_ i hi
          intro j hj
          rcases List.mem_append.mp hj with hj | hj
          · exact hacc j hj
          · exact ⟨name, List.mem_singleton.mp hj ▸ rfl⟩
        · simp only at hi
          rcases List.mem_append.mp hi with hj | hj
          · exact hacc i hj
          · exact ⟨name, List.mem_singleton.mp hj ▸ rfl⟩

theorem verify_invs_shape (env : VerifyEnv) :
    ∀ i ∈ (verify env).invs, ∃ name, i = Invocation.check name 600 :=
  verifyAux_invs_shape env checksList 0 [] [] (by simp)

theorem dvAux_invs_shape (reqPrompt : String) (deadline : Int) :
    ∀ (ats : List AttemptEnv) (attempt : Nat) (notes : List String) (feedback : String)
      (i : Invocation), i ∈ (dvAux reqPrompt deadline ats attempt notes feedback).invs →
      (∃ pr r, i = Invocation.codex pr (codexTimeout r) r) ∨
      (∃ name, i = Invocation.check name 600)
  | [], _, _, _, i, hi => by simp [dvAux] at hi
  | a :: rest, attempt, notes, feedback, i, hi => by
      simp only [dvAux] at hi
      split at hi
      · simp at hi
      · split at hi
        · rcases List.mem_cons.mp hi with h0 | h0
          · exact Or.inl ⟨_, _, h0⟩
          · exact Or.inr (verify_invs_shape a.verifyEnv i h0)
        · rcases List.mem_append.mp hi with h0 | h0
          · rcases List.mem_cons.mp h0 with h1 | h1
            · exact Or.inl ⟨_, _, h1⟩
            · exact Or.inr (verify_invs_shape a.verifyEnv i h1)
          · exact dvAux_invs_shape reqPrompt deadline rest (attempt + 1) _ _ i h0

/-! ## Helper lemmas: event traces of deploy and process -/

theorem deploy_no_queue_ops (id : String) (env : DeployEnv) :
    ∀ e ∈ (deploy id env).events, e.isPop = false ∧ e.isEnqueue = false := by
  unfold deploy
  split_ifs <;> intro e he <;> cases e <;>
    simp_all [Event.isPop, Event.isEnqueue]

theorem deploy_no_pop (id : String) (env : DeployEnv) (x : String) :
    Event.popQueue x ∉ (deploy id env).events := by
  intro h
  have := (deploy_no_queue_ops id env _ h).1
  simp [Event.isPop] at this

theorem deploy_no_enq (id : String) (env : DeployEnv) (x : String) :
    Event.enqueueReq x ∉ (deploy id env).events := by
  intro h
  have := (deploy_no_queue_ops id env _ h).2
  simp [Event.isEnqueue] at this

theorem processEvents_no_queue_ops (req : UpgradeRequest) (env : ProcessEnv) :
    ∀ e ∈ processEvents req env, e.isPop = false ∧ e.isEnqueue = false := by
  unfold processEvents
  split_ifs <;> intro e he <;> cases e <;>
    simp_all [Event.isPop, Event.isEnqueue, deploy_no_pop, deploy_no_enq]

theorem processEvents_terminal (req : UpgradeRequest) (env : ProcessEnv) :
    ∃ s notes, Event.writeTaskMd req.id s notes ∈ processEvents req env ∧
      isTerminal s = true := by
  unfold processEvents
  split_ifs
  · exact ⟨"REJECTED", [rejectNote], by simp, by decide⟩
  · refine ⟨if (deploy req.id env.deployEnv).ok then "SUCCESS" else "FAILED",
      env.devNotes ++ (deploy req.id env.deployEnv).notes, by simp, ?_⟩
    cases (deploy req.id env.deployEnv).ok <;> decide
  · exact ⟨"FAILED", env.devNotes, by simp, by decide⟩
  · exact ⟨"FAILED", ["Repo not clean: " ++ env.cleanDetail], by simp, by decide⟩

/-! ## Claim theorems -/

/-- C1: for every task the supervisor processes — including one whose
processing raises an unexpected fault — the single pending-task iteration of
`run_forever` writes a terminal status (SUCCESS, FAILED, or REJECTED) to the
task log before the queue entry is removed, and removes the queue entry
exactly once, with no re-queue: the trace is a body containing a terminal
`writeTaskMd` and no queue operations, followed by exactly one `popQueue`. -/
theorem c1_terminal_logged_before_pop (req : UpgradeRequest) (o : ProcOutcome) :
    ∃ body, runOnce req o = body ++ [Event.popQueue req.id] ∧
      (∀ e ∈ body, e.isPop = false ∧ e.isEnqueue = false) ∧
      ∃ s notes, Event.writeTaskMd req.id s notes ∈ body ∧ isTerminal s = true := by
  cases o with
  | completed env =>
      exact ⟨processEvents req env, rfl, processEvents_no_queue_ops req env,
        processEvents_terminal req env⟩
  | raised env n msg =>
      refine ⟨(processEvents req env).take n ++
        [Event.writeTaskMd req.id "FAILED" ["Supervisor exception: " ++ msg]], ?_, ?_, ?_⟩
      · simp [runOnce, List.append_assoc]
      · intro e he
        rcases List.mem_append.mp he with hm | hm
        · exact processEvents_no_queue_ops req env e ((List.take_sublist n _).mem hm)
        · rw [List.mem_singleton.mp hm]
          exact ⟨rfl, rfl⟩
      · exact ⟨"FAILED", ["Supervisor exception: " ++ msg],
          List.mem_append_right _ (List.mem_singleton.mpr rfl), by decide⟩

/-- C2 counterexample: the claim asserts a write-temp-then-rename pattern for
the structured writes of `enqueue` and `write_task_md`, but on a concrete
request the operation trace of `enqueue` (which includes the `write_task_md`
of the QUEUED record) contains no rename at all: both operations are direct
writes, the first of them onto the final queue path. -/
theorem c2_counterexample :
    (enqueueOps ⟨"t0", "ti", "pr", "core", "alice", "2026"⟩ "now").any FsOp.isRename = false ∧
    (enqueueOps ⟨"t0", "ti", "pr", "core", "alice", "2026"⟩ "now").length = 2 ∧
    (enqueueOps ⟨"t0", "ti", "pr", "core", "alice", "2026"⟩ "now").head? =
      some (FsOp.write (queuePath "t0")
        (jsonOfReq ⟨"t0", "ti", "pr", "core", "alice", "2026"⟩)) := by
  decide

/-- C2 amended: every filesystem operation of `enqueue` and of
`write_task_md` is a single direct write onto the final artifact path (the
queue entry path or the task-log path of the request); no temporary file is
written and no rename is performed. -/
theorem c2_amended_direct_final_writes (req : UpgradeRequest) (status : String)
    (notes : List String) (now : String) :
    (writeTaskMdOps req status notes now).all (writesFinal req.id) = true ∧
    (enqueueOps req now).all (writesFinal req.id) = true := by
  simp [writeTaskMdOps, enqueueOps, writesFinal]

/-- C3 counterexample: on a successful deploy run, the live tree is mutated
(the forward patch is applied) strictly before the rollback patch is
persisted: scanning the deploy trace up to the rollback-patch write already
crosses a live mutation, so the claim that both patches are persisted before
any live-tree mutation is false. -/
theorem c3_counterexample :
    ((deploy "t1" ⟨true, "d\n", true, "", true, "r\n", true, true, false⟩).events.takeWhile
        (fun e => !e.isWriteRollback)).any Event.mutatesLive = true ∧
    (deploy "t1" ⟨true, "d\n", true, "", true, "r\n", true, true, false⟩).events.any
        Event.isWriteRollback = true := by
  decide

/-- C3 amended: in every deploy trace the forward patch is persisted before
any live-tree mutation, while the rollback patch — when written at all — is
persisted only after the forward patch has been applied to the live tree
(the only prior mutation) and before the service cutover begins. -/
theorem c3_amended_patch_ordering (id : String) (env : DeployEnv) :
    fwdBeforeMut (deploy id env).events = true ∧
    applyBeforeRollback (deploy id env).events = true ∧
    noRollbackAfterCutover (deploy id env).events = true := by
  unfold deploy
  split_ifs <;>
    simp_all [fwdBeforeMut, applyBeforeRollback, noRollbackAfterCutover,
      Event.mutatesLive, Event.isWriteForward, Event.isWriteRollback, Event.isCutover] <;>
    split_ifs <;>
      simp_all [noRollbackAfterCutover, Event.isWriteRollback, Event.isCutover]

/-- C4: when no check of the verification pipeline is runnable (each of the
three executables is absent, so every check is skipped), `_verify` returns
failure, never success. -/
theorem c4_no_runnable_checks_fails (env : VerifyEnv)
    (h1 : env.which "python3" = false) (h2 : env.which "ruff" = false)
    (h3 : env.which "pytest" = false) :
    (verify env).ok = false := by
  simp [verify, verifyAux, checksList, h1, h2, h3]

/-- C4 witness: a concrete environment with no tools on the PATH fails
verification. -/
theorem c4_witness :
    (verify ⟨fun _ => false, fun _ => true, fun _ => ""⟩).ok = false :=
  c4_no_runnable_checks_fails ⟨fun _ => false, fun _ => true, fun _ => ""⟩ rfl rfl rfl

/-- C5 counterexample: the notes list of the task log is not append-only
across status transitions.  For a concrete non-core request, the record is
first written with status QUEUED and the note list containing
"Task queued.", and the next rewrite (REJECTED) carries a note list that
does not contain that note: the earlier note is dropped, not appended to. -/
theorem c5_counterexample :
    lifecycleWrites ⟨"t0", "ti", "pr", "skill", "bob", "2026"⟩
        (ProcOutcome.completed ⟨true, "", true, [],
          ⟨true, "d", true, "", true, "r", true, true, false⟩⟩) =
      [("QUEUED", ["Task queued."]), ("REJECTED", [rejectNote])] ∧
    "Task queued." ∈ (["Task queued."] : List String) ∧
    "Task queued." ∉ [rejectNote] := by
  decide

/-- C5 amended: `write_task_md` rewrites the record wholesale from its
arguments alone: the new record is independent of whatever was previously
stored (so notes of earlier records are not preserved unless the caller
passes them again), and its content is exactly the render of the notes
passed at this transition. -/
theorem c5_amended_full_overwrite (s1 s2 : String → String) (req : UpgradeRequest)
    (status : String) (notes : List String) (now : String) :
    applyMdWrite s1 req status notes now (taskMdPath req.id) =
      applyMdWrite s2 req status notes now (taskMdPath req.id) ∧
    applyMdWrite s1 req status notes now (taskMdPath req.id) =
      renderTaskMd req status notes now := by
  simp [applyMdWrite]

set_option maxRecDepth 10000 in
/-- C6 counterexample: with 10 seconds left under the loop deadline (a
reachable state, since the loop head observed a time before the deadline),
the generation step is invoked with a 60-second timeout, which exceeds the
remaining budget — so not every individual invocation timeout is bounded by
the time remaining. -/
theorem c6_counterexample :
    (developVerify "p" 1000
        [⟨995, 990, true, "", ⟨fun _ => false, fun _ => true, fun _ => ""⟩⟩]).invs =
      [Invocation.codex (codexPrompt "p" "") 60 10] ∧
    (10 : Int) < 60 := by
  exact ⟨by decide, by decide⟩

/-- C6 amended: every external invocation of the develop-verify loop has a
clamped timeout: the generation step runs with
`min(900, max(60, remaining))`, which lies in `[60, 900]` and is bounded by
the remaining budget whenever at least 60 seconds remain (but exceeds the
remaining budget when less remains), while every verification check runs
with the fixed 600-second timeout regardless of the remaining budget. -/
theorem c6_amended_timeout_clamping (reqPrompt : String) (deadline : Int)
    (attempts : List AttemptEnv) (inv : Invocation)
    (h : inv ∈ (developVerify reqPrompt deadline attempts).invs) :
    (∀ pr t r, inv = Invocation.codex pr t r →
      t = codexTimeout r ∧ 60 ≤ t ∧ t ≤ 900 ∧ (60 ≤ r → t ≤ r)) ∧
    (∀ name t, inv = Invocation.check name t → t = 600) := by
  have hs := dvAux_invs_shape reqPrompt deadline attempts 0 [] "" inv h
  constructor
  · rintro pr t r rfl
    rcases hs with ⟨pr2, r2, he⟩ | ⟨nm, he⟩
    · injection he with h1 h2 h3
      subst h3
      subst h2
      refine ⟨rfl, ?_, ?_, fun hr => ?_⟩ <;> (unfold codexTimeout; omega)
    · exact absurd he (by simp)
  · rintro nm t rfl
    rcases hs with ⟨pr2, r2, he⟩ | ⟨nm2, he⟩
    · exact absurd he (by simp)
    · simp only [Invocation.check.injEq] at he
      exact he.2

set_option maxRecDepth 10000 in
/-- C6 witness: in a concrete loop run a verification check is invoked, and
the amended theorem yields its fixed 600-second timeout. -/
theorem c6_witness :
    Invocation.check "compile" 600 ∈
      (developVerify "p" 1000
        [⟨0, 0, true, "", ⟨fun e => e == "python3", fun _ => false, fun _ => "x"⟩⟩]).invs ∧
    (∀ name t, Invocation.check "compile" 600 = Invocation.check name t → t = 600) :=
  ⟨by decide,
   (c6_amended_timeout_clamping "p" 1000
      [⟨0, 0, true, "", ⟨fun e => e == "python3", fun _ => false, fun _ => "x"⟩⟩]
      (Invocation.check "compile" 600) (by decide)).2⟩

/-- C7: a request whose scope is not core is marked REJECTED and processing
stops: the entire effect trace of `_process` is the single task-log write of
the REJECTED record — no worktree is created, no patch artifact is written,
the develop-verify loop is never entered, and no state other than the task
log is touched. -/
theorem c7_noncore_rejected_only_log (req : UpgradeRequest) (env : ProcessEnv)
    (h : req.scope ≠ "core") :
    processEvents req env = [Event.writeTaskMd req.id "REJECTED" [rejectNote]] := by
  simp [processEvents, h]

/-- C7 witness: a concrete request with scope skill produces exactly the
single REJECTED task-log write. -/
theorem c7_witness :
    processEvents ⟨"t0", "ti", "pr", "skill", "bob", "2026"⟩
        ⟨true, "", true, [], ⟨true, "d", true, "", true, "r", true, true, false⟩⟩ =
      [Event.writeTaskMd "t0" "REJECTED" [rejectNote]] :=
  c7_noncore_rejected_only_log ⟨"t0", "ti", "pr", "skill", "bob", "2026"⟩
    ⟨true, "", true, [], ⟨true, "d", true, "", true, "r", true, true, false⟩⟩ (by decide)

/-- C8 counterexample: two requests created within the same clock second get
ids whose lexicographic order is decided by the random uuid suffix, not by
creation order: with the earlier-created request drawing suffix ffffff and
the later one 000000, the earlier id is not lexicographically smaller (in
fact the later id is strictly smaller), refuting the claim that creation
order always coincides with lexicographic id order. -/
theorem c8_counterexample :
    lexLt (mkId ⟨2026, 1, 1, 0, 0, 0⟩ "ffffff".data)
        (mkId ⟨2026, 1, 1, 0, 0, 0⟩ "000000".data) = false ∧
    lexLt (mkId ⟨2026, 1, 1, 0, 0, 0⟩ "000000".data)
        (mkId ⟨2026, 1, 1, 0, 0, 0⟩ "ffffff".data) = true := by
  decide

/-- C8 amended: for requests created in distinct clock seconds (with a
monotone local clock and timestamp fields within the widths the format
zero-pads to), the earlier-created request has the lexicographically smaller
id whatever the random suffixes are — so name-sorted queue listing is FIFO
down to second granularity, while ties within one second are ordered by the
random suffix. -/
theorem c8_amended_seconds_fifo (t1 t2 : LocalTime) (s1 s2 : List Char)
    (hb1 : tsBounded t1) (hb2 : tsBounded t2) (h : tsEarlier t1 t2) :
    lexLt (mkId t1 s1) (mkId t2 s2) = true :=
  mkId_lt t1 t2 s1 s2 hb1 hb2 h

/-- C8 witness: two concrete ids one second apart, with adversarial
suffixes, still sort in creation order. -/
theorem c8_witness :
    lexLt (mkId ⟨2026, 10, 12, 9, 30, 0⟩ "zzzzzz".data)
        (mkId ⟨2026, 10, 12, 9, 30, 1⟩ "000000".data) = true :=
  c8_amended_seconds_fifo ⟨2026, 10, 12, 9, 30, 0⟩ ⟨2026, 10, 12, 9, 30, 1⟩
    "zzzzzz".data "000000".data (by decide) (by decide) (by decide)

/-- C9 counterexample: the feedback block is built from the last eight
entries of the verification note list, not the last eight text lines.  A
failing check contributes its (trimmed) multi-line output as a single note
entry, so on a concrete run the note list has only two entries yet the
feedback block spans ten lines — more than the eight lines the claim
allows. -/
theorem c9_counterexample :
    (verify ⟨fun e => e == "python3", fun _ => false,
        fun _ => "l1\nl2\nl3\nl4\nl5\nl6\nl7\nl8\nl9"⟩).notes.length = 2 ∧
    numLines (feedbackOf (verify ⟨fun e => e == "python3", fun _ => false,
        fun _ => "l1\nl2\nl3\nl4\nl5\nl6\nl7\nl8\nl9"⟩).notes) = 10 ∧
    ¬ numLines (feedbackOf (verify ⟨fun e => e == "python3", fun _ => false,
        fun _ => "l1\nl2\nl3\nl4\nl5\nl6\nl7\nl8\nl9"⟩).notes) ≤ 8 := by
  refine ⟨by decide, by decide, by decide⟩

/-- C9 amended: from the second attempt onward the feedback block is the
newline-join of at most the last eight entries of the previous attempt
verification note list — a suffix of that list of at most eight entries
(each entry may itself span many lines, bounded only by the 1200-character
output trim). -/
theorem c9_amended_last_entries (verifyNotes : List String) :
    (verifyNotes.drop (verifyNotes.length - 8)).length ≤ 8 ∧
    verifyNotes.drop (verifyNotes.length - 8) <:+ verifyNotes ∧
    feedbackOf verifyNotes =
      String.intercalate "\n" (verifyNotes.drop (verifyNotes.length - 8)) := by
  refine ⟨?_, List.drop_suffix _ _, rfl⟩
  rw [List.length_drop]
  omega

/-- Shape of the slug for arbitrary character-classification and lowercasing
functions (the Python Unicode database functions are instances): the result
is non-empty, at most 40 characters, made only of hyphens and characters
drawn from the lowercase images of alphanumeric input characters, never
starts with a hyphen, never has two consecutive hyphens, and is the literal
"upgrade" when no input character is alphanumeric. -/
theorem slug_shape_aux (isAlnum : Char → Bool) (lower : Char → List Char) (text : List Char) :
    _slug isAlnum lower text ≠ [] ∧
    (_slug isAlnum lower text).length ≤ 40 ∧
    (∀ c ∈ _slug isAlnum lower text,
      c = '-' ∨ (c ≠ '-' ∧ ∃ ch ∈ text, isAlnum ch = true ∧ c ∈ lower ch) ∨
      _slug isAlnum lower text = "upgrade".data) ∧
    (_slug isAlnum lower text).head? ≠ some '-' ∧
    noDD (_slug isAlnum lower text) = true ∧
    ((∀ ch ∈ text, isAlnum ch = false) → _slug isAlnum lower text = "upgrade".data) := by
  have hs : _slug isAlnum lower text =
      if (joinHyphen ((pySplit '-'
            ((text.map (fun ch => if isAlnum ch then lower ch else ['-'])).flatten)).filter
          (fun p => p ≠ []))).take 40 = []
      then "upgrade".data
      else (joinHyphen ((pySplit '-'
            ((text.map (fun ch => if isAlnum ch then lower ch else ['-'])).flatten)).filter
          (fun p => p ≠ []))).take 40 := rfl
  set clean1 := (text.map (fun ch => if isAlnum ch then lower ch else ['-'])).flatten with hc1
  set parts := (pySplit '-' clean1).filter (fun p => p ≠ []) with hp
  set clean2 := joinHyphen parts with hc2
  have hpartsGood : ∀ p ∈ parts, p ≠ [] ∧ '-' ∉ p ∧ ∀ c ∈ p, c ∈ clean1 := by
    intro p hmem
    have hf := List.mem_filter.mp hmem
    have hne : p ≠ [] := by simpa using hf.2
    have hchars := pySplit_chars '-' clean1 p hf.1
    exact ⟨hne, fun hcmem => (hchars '-' hcmem).2 rfl, fun c hcmem => (hchars c hcmem).1⟩
  have hclean1chars : ∀ c ∈ clean1, c = '-' ∨ ∃ ch ∈ text, isAlnum ch = true ∧ c ∈ lower ch := by
    intro c hcmem
    rcases List.mem_flatten.mp hcmem with ⟨l, hl, hcl⟩
    rcases List.mem_map.mp hl with ⟨ch, hch, rfl⟩
    by_cases ha : isAlnum ch = true
    · rw [if_pos ha] at hcl
      exact Or.inr ⟨ch, hch, ha, hcl⟩
    · rw [if_neg ha] at hcl
      exact Or.inl (List.mem_singleton.mp hcl)
  have hclean2chars : ∀ c ∈ clean2,
      c = '-' ∨ (c ≠ '-' ∧ ∃ ch ∈ text, isAlnum ch = true ∧ c ∈ lower ch) := by
    intro c hcmem
    rcases joinHyphen_mem parts c hcmem with h0 | ⟨p, hpmem, hcp⟩
    · exact Or.inl h0
    · have hgood := hpartsGood p hpmem
      have hcne : c ≠ '-' := fun h0 => hgood.2.1 (h0 ▸ hcp)
      rcases hclean1chars c (hgood.2.2 c hcp) with h0 | h0
      · exact absurd h0 hcne
      · exact Or.inr ⟨hcne, h0⟩
  have hnoDD2 : noDD clean2 = true :=
    joinHyphen_noDD parts (fun p hpmem => ⟨(hpartsGood p hpmem).1, (hpartsGood p hpmem).2.1⟩)
  by_cases he : clean2.take 40 = []
  · rw [hs, if_pos he]
    exact ⟨by decide, by decide, fun c _ => Or.inr (Or.inr rfl), by decide, by decide,
      fun _ => rfl⟩
  · rw [hs, if_neg he]
    have h2ne : clean2 ≠ [] := by
      intro h0
      exact he (by rw [h0]; rfl)
    have hpne : parts ≠ [] := by
      intro h0
      exact h2ne (by rw [hc2, h0]; rfl)
    obtain ⟨q, ps, hqps⟩ : ∃ q ps, parts = q :: ps := by
      cases hcase : parts with
      | nil => exact absurd hcase hpne
      | cons q ps => exact ⟨q, ps, rfl⟩
    have hqGood := hpartsGood q (by rw [hqps]; exact List.mem_cons_self _ _)
    obtain ⟨qc, qt, hq⟩ : ∃ qc qt, q = qc :: qt := by
      cases hcase : q with
      | nil => exact absurd hcase hqGood.1
      | cons qc qt => exact ⟨qc, qt, rfl⟩
    have hqc : qc ≠ '-' := by
      intro h0
      exact hqGood.2.1 (by rw [hq, h0]; exact List.mem_cons_self _ _)
    have hhead : clean2 = qc :: (qt ++ (if ps = [] then [] else '-' :: joinHyphen ps)) := by
      rw [hc2, hqps, joinHyphen_cons, hq]
      rfl
    refine ⟨he, ?_, ?_, ?_, noDD_take clean2 40 hnoDD2, ?_⟩
    · rw [List.length_take]
      exact Nat.min_le_left _ _
    · intro c hcmem
      rcases hclean2chars c ((List.take_sublist 40 clean2).mem hcmem) with h0 | h0
      · exact Or.inl h0
      · exact Or.inr (Or.inl h0)
    · rw [hhead, show (40 : Nat) = 39 + 1 from rfl, List.take_succ_cons]
      simp [hqc]
    · intro hnone
      exfalso
      have hall1 : ∀ c ∈ clean1, c = '-' := by
        intro c hcmem
        rcases List.mem_flatten.mp hcmem with ⟨l, hl, hcl⟩
        rcases List.mem_map.mp hl with ⟨ch, hch, rfl⟩
        rw [if_neg (by simp [hnone ch hch])] at hcl
        exact List.mem_singleton.mp hcl
      have : qc = '-' := hall1 qc (hqGood.2.2 qc (by rw [hq]; exact List.mem_cons_self _ _))
      exact hqc this

/-- C10 counterexample: on reachable non-ASCII input the real slug violates
the claim.  Under the Python Unicode classification (modelled exactly at the
codepoints evaluated here), the CJK letter U+5347 is alphanumeric and
uncased, so the slug of that one-character title is that very character — it
is not a lowercase ASCII alphanumeric or hyphen, and (the input having no
ASCII alphanumeric character at all) the output is also not the literal
"upgrade"; and the slug of capital I with dot above (U+0130) contains the
combining dot above (U+0307), a character that is not alphanumeric even
under the full Unicode classification, and not a hyphen. -/
theorem c10_counterexample :
    _slug pyIsAlnumFrag pyLowerFrag ['升'] = ['升'] ∧
    (∀ c ∈ ['升'], c.isAlphanum = false) ∧
    _slug pyIsAlnumFrag pyLowerFrag ['升'] ≠ "upgrade".data ∧
    ¬ ('升' = '-' ∨ ('升'.isAlphanum = true ∧ '升'.isUpper = false)) ∧
    _slug pyIsAlnumFrag pyLowerFrag ['İ'] = ['i', Char.ofNat 0x307] ∧
    Char.ofNat 0x307 ∈ _slug pyIsAlnumFrag pyLowerFrag ['İ'] ∧
    pyIsAlnumFrag (Char.ofNat 0x307) = false ∧
    Char.ofNat 0x307 ≠ '-' := by
  decide

/-- C10 amended: for every input and for the (arbitrary, in particular the
Python Unicode) alphanumericity and lowercasing functions, the slug is
non-empty, at most 40 characters, never starts with a hyphen, never
contains two consecutive hyphens, consists only of hyphens and characters
obtained by lowercasing alphanumeric input characters (unless it is the
fallback literal "upgrade") — which for the ASCII classification are exactly
lowercase ASCII alphanumerics, but for non-ASCII input need not be lowercase
ASCII alphanumerics — and is the literal "upgrade" for input none of whose
characters is alphanumeric under the classification used. -/
theorem c10_slug_shape (isAlnum : Char → Bool) (lower : Char → List Char) (text : List Char) :
    _slug isAlnum lower text ≠ [] ∧
    (_slug isAlnum lower text).length ≤ 40 ∧
    (∀ c ∈ _slug isAlnum lower text,
      c = '-' ∨ (c ≠ '-' ∧ ∃ ch ∈ text, isAlnum ch = true ∧ c ∈ lower ch) ∨
      _slug isAlnum lower text = "upgrade".data) ∧
    (_slug isAlnum lower text).head? ≠ some '-' ∧
    noDD (_slug isAlnum lower text) = true ∧
    ((∀ ch ∈ text, isAlnum ch = false) → _slug isAlnum lower text = "upgrade".data) ∧
    (∀ c ∈ _slug (fun ch => ch.isAlphanum) (fun ch => [ch.toLower]) text,
      c = '-' ∨ (c.isAlphanum = true ∧ c.isUpper = false)) := by
  obtain ⟨h1, h2, h3, h4, h5, h6⟩ := slug_shape_aux isAlnum lower text
  refine ⟨h1, h2, h3, h4, h5, h6, ?_⟩
  intro c hc
  rcases (slug_shape_aux (fun ch => ch.isAlphanum) (fun ch => [ch.toLower]) text).2.2.1 c hc with
    h0 | ⟨_, ch, _, ha, hcl⟩ | hup
  · exact Or.inl h0
  · rw [List.mem_singleton.mp hcl]
    exact Or.inr (toLower_alnum ch ha)
  · rw [hup] at hc
    have hupg : ∀ x ∈ "upgrade".data, x = '-' ∨ (x.isAlphanum = true ∧ x.isUpper = false) := by
      decide
    exact hupg c hc

/-- C10 witness: an input with no alphanumeric character (under the Python
classification fragment) maps to the literal slug "upgrade" by the
no-alphanumeric clause of the amended theorem. -/
theorem c10_witness :
    _slug pyIsAlnumFrag pyLowerFrag " !?".data = "upgrade".data ∧
    (∀ ch ∈ " !?".data, pyIsAlnumFrag ch = false) :=
  ⟨(c10_slug_shape pyIsAlnumFrag pyLowerFrag " !?".data).2.2.2.2.2.1 (by decide), by decide⟩
